import Mathlib

/-!
# Shard leader: dependency tracking, batching and commit proofs

A shallow embedding of `core/endorser/sharding/shard_leader.go`.

Conventions of the embedding

* A Go `map[string]V` is a `GoMap V`: a list of key/value entries.  The order
  of the entries stands for the order in which a `for ... range` statement
  visits the map; Go leaves that order open, so a property claimed for every
  iteration order is stated for every permutation of the entries.
* `time.Time` is a number of nanoseconds since the Unix epoch, `time.Duration`
  a number of nanoseconds.
* A buffered channel is the list of the values it currently holds, oldest
  first, together with its capacity.
* Methods on `*ShardLeader` take the replica state and return the new one.
  Values read from outside the replica (the wall clock, the Raft status, the
  decoder of the entry payload) are parameters.
-/

namespace Sharding

/-! ## Data model -/

/-- A Go byte slice. -/
abbrev Bytes := List UInt8

/-- Nanoseconds since the Unix epoch (`time.Time`). -/
abbrev Time := Int

/-- Nanoseconds (`time.Duration`). -/
abbrev Duration := Int

/-- One second, `time.Second`. -/
def Second : Duration := 1000000000

/-- One minute, `time.Minute`. -/
def Minute : Duration := 60 * Second

/-- The instant `t` moved by `d`, `t.Add(d)`. -/
def Time.Add (t : Time) (d : Duration) : Time := t + d

/-- Whole seconds since the Unix epoch, rounded down, `t.Unix()`. -/
def Time.Unix (t : Time) : Int := t / 1000000000

def DefaultBatchMaxSize : Int := 20

def DefaultExpiryDuration : Duration := 5 * Minute

/-- A Go map with string keys; the entry order is the iteration order. -/
structure GoMap (V : Type) where
  entries : List (String × V)
deriving DecidableEq, Repr

namespace GoMap

variable {V : Type}

/-- The result of `make(map[string]V)`. -/
def empty : GoMap V := ⟨[]⟩

/-- The keys in the order a `range` visits them. -/
def keys (m : GoMap V) : List String := m.entries.map Prod.fst

/-- The value of the first entry stored under `k`. -/
def lookupEntry (k : String) : List (String × V) → Option V
  | [] => none
  | e :: rest => if e.1 = k then some e.2 else lookupEntry k rest

/-- The two-valued index expression `v, exists := m[k]`. -/
def get? (m : GoMap V) (k : String) : Option V := lookupEntry k m.entries

/-- Overwrites the value under `k` in place, or adds a new entry. -/
def setEntry (k : String) (v : V) : List (String × V) → List (String × V)
  | [] => [(k, v)]
  | e :: rest => if e.1 = k then (k, v) :: rest else e :: setEntry k v rest

/-- The assignment `m[k] = v`. -/
def set (m : GoMap V) (k : String) (v : V) : GoMap V := ⟨setEntry k v m.entries⟩

/-- Keys are unique, as in every Go map. -/
def WF (m : GoMap V) : Prop := m.keys.Nodup

instance (m : GoMap V) : Decidable m.WF := inferInstanceAs (Decidable (m.keys.Nodup))

end GoMap

/-- The last-writer record of one key. -/
structure TransactionDependencyInfo where
  Value : Bytes
  DependentTxID : String
  ExpiryTime : Time
  HasDependency : Bool
deriving DecidableEq, Repr

/-- A dependency preparation request as a client submits it. -/
structure PrepareRequest where
  TxID : String
  ShardID : String
  ReadSet : GoMap Bytes
  WriteSet : GoMap Bytes
  Timestamp : Time
deriving DecidableEq, Repr

/-- The wire form of a request, with the fields `serializeBatch` fills in;
`Timestamp` is an `int64` count of Unix seconds. -/
structure PrepareRequestProto where
  TxID : String
  ShardID : String
  ReadSet : GoMap Bytes
  WriteSet : GoMap Bytes
  Timestamp : Int
deriving DecidableEq, Repr

/-- The payload of one log entry: an ordered list of requests. -/
structure PrepareRequestBatch where
  Requests : List PrepareRequestProto
deriving DecidableEq, Repr

/-- A committed dependency entry. -/
structure PrepareProof where
  TxID : String
  ShardID : String
  CommitIndex : Nat
  LeaderID : Nat
  Signature : Bytes
  Term : Nat
deriving DecidableEq, Repr

/-- The fields of `raftpb.Entry` that `applyEntry` reads. -/
structure Entry where
  Term : Nat
  Index : Nat
  Data : Bytes
deriving DecidableEq, Repr

/-- The capacity of `commitC`, `make(chan *PrepareProof, 1000)`. -/
def commitCCap : Nat := 1000

/-- The replica state that the batcher and the apply path touch. -/
structure ShardLeader where
  shardID : String
  commitIndex : Nat
  variableMap : GoMap TransactionDependencyInfo
  batchQueue : List PrepareRequest
  maxBatchSize : Int
  lastBatchTime : Time
  commitC : List PrepareProof
  requestsHandled : Int
deriving DecidableEq, Repr

/-! ## Dependency map -/

/-- One `for key := range ... { if depInfo, exists := variableMap[key]; exists
{ ...; break } }` loop: the `DependentTxID` of the first visited key that has
a record. -/
def scanKeys (variableMap : GoMap TransactionDependencyInfo) : List String → Option String
  | [] => none
  | key :: rest =>
    match variableMap.get? key with
    | some depInfo => some depInfo.DependentTxID
    | none => scanKeys variableMap rest

/-- Checks if a transaction has dependencies: the read set first, the write
set only when no read key matched. -/
def checkDependencies (sl : ShardLeader) (req : PrepareRequestProto) : Bool × String :=
  match scanKeys sl.variableMap req.ReadSet.keys with
  | some dependentTxID => (true, dependentTxID)
  | none =>
    match scanKeys sl.variableMap req.WriteSet.keys with
    | some dependentTxID => (true, dependentTxID)
    | none => (false, "")

/-- Updates the dependency tracking: every key of the write set gets a fresh
record.  `now` is the value of `time.Now()`; `depTxID` and `commitIndex` are
only logged by the source. -/
def updateDependencyMap (sl : ShardLeader) (req : PrepareRequestProto) (hasDep : Bool)
    (_depTxID : String) (_commitIndex : Nat) (now : Time) : ShardLeader :=
  let expiryTime := now.Add DefaultExpiryDuration
  { sl with
    variableMap := req.WriteSet.keys.foldl
      (fun m key => m.set key
        { Value := (req.WriteSet.get? key).getD []
          DependentTxID := req.TxID
          ExpiryTime := expiryTime
          HasDependency := hasDep })
      sl.variableMap }

/-! ## Apply path -/

/-- What the apply loop reads from outside the replica while it handles the
`i`-th request of an entry: the wall clock inside `updateDependencyMap` and
the leader reported by `node.Status()`. -/
structure World where
  now : Nat → Time
  lead : Nat → Nat

/-- Creates the signature of a proof: the bytes of
`fmt.Sprintf("%s:%d:%s", shardID, commitIndex, txID)`. -/
def signProof (sl : ShardLeader) (txID : String) (commitIndex : Nat) : Bytes :=
  let data := sl.shardID ++ ":" ++ toString commitIndex ++ ":" ++ txID
  data.toUTF8.data.toList

/-- The statement `select { case sl.commitC <- proof: ... default: ... }`: the
proof is queued when the channel has room and dropped otherwise. -/
def trySend (sl : ShardLeader) (proof : PrepareProof) : ShardLeader :=
  if sl.commitC.length < commitCCap then
    { sl with commitC := sl.commitC ++ [proof] }
  else
    sl

/-- Two's complement wrap-around of an `int64` result. -/
def wrapInt64 (x : Int) : Int := (x + 2 ^ 63) % 2 ^ 64 - 2 ^ 63

/-- The body of the loop of `applyEntry` for one request; `lead` and `now`
are what `node.Status().Lead` and `time.Now()` return during it. -/
def applyRequest (lead : Nat) (now : Time) (entry : Entry) (sl : ShardLeader)
    (reqProto : PrepareRequestProto) : ShardLeader :=
  let verdict := checkDependencies sl reqProto
  let hasDependency := verdict.1
  let dependentTxID := verdict.2
  let proof : PrepareProof :=
    { TxID := reqProto.TxID
      ShardID := sl.shardID
      CommitIndex := sl.commitIndex
      LeaderID := lead
      Term := entry.Term
      Signature := signProof sl reqProto.TxID sl.commitIndex }
  let sl := updateDependencyMap sl reqProto hasDependency dependentTxID entry.Index now
  let sl := trySend sl proof
  { sl with requestsHandled := wrapInt64 (sl.requestsHandled + 1) }

/-- The loop `for _, reqProto := range batch.Requests`, started at the
request with number `i`. -/
def applyRequests (w : World) (entry : Entry) :
    Nat → ShardLeader → List PrepareRequestProto → ShardLeader
  | _, sl, [] => sl
  | i, sl, reqProto :: rest =>
    applyRequests w entry (i + 1) (applyRequest (w.lead i) (w.now i) entry sl reqProto) rest

/-- Applies a committed Raft entry.  `Unmarshal` is the decoder of
`PrepareRequestBatch`. -/
def applyEntry (Unmarshal : Bytes → Except String PrepareRequestBatch) (w : World)
    (sl : ShardLeader) (entry : Entry) : ShardLeader :=
  let sl := { sl with commitIndex := entry.Index }
  match Unmarshal entry.Data with
  | .error _ => sl
  | .ok batch => applyRequests w entry 0 sl batch.Requests

/-! ## Batcher -/

/-- The loop `for k, v := range src { dst[k] = v }` on a fresh map. -/
def copyMap (src : GoMap Bytes) : GoMap Bytes :=
  src.entries.foldl (fun dst e => dst.set e.1 e.2) GoMap.empty

/-- The wire form that `serializeBatch` builds for one request. -/
def toProto (req : PrepareRequest) : PrepareRequestProto :=
  { TxID := req.TxID
    ShardID := req.ShardID
    ReadSet := copyMap req.ReadSet
    WriteSet := copyMap req.WriteSet
    Timestamp := req.Timestamp.Unix }

/-- Serializes a batch of prepare requests.  `Marshal` is the encoder of
`PrepareRequestBatch`. -/
def serializeBatch (Marshal : PrepareRequestBatch → Except String Bytes)
    (batch : List PrepareRequest) : Except String Bytes :=
  let pbBatch : PrepareRequestBatch := { Requests := batch.map toProto }
  Marshal pbBatch

/-- What one call of `flushBatch` that found requests did: the batch it took
out of the buffer and the bytes it passed to `node.Propose` (none when
serialization failed). -/
structure Flushed where
  batch : List PrepareRequest
  data : Option Bytes
deriving DecidableEq, Repr

/-- Proposes the batched requests to Raft: returns the new replica state and,
unless the buffer was empty, the record of the flush.  `now` is the value of
`time.Now()` under the lock. -/
def flushBatch (Marshal : PrepareRequestBatch → Except String Bytes) (now : Time)
    (sl : ShardLeader) : ShardLeader × Option Flushed :=
  if sl.batchQueue.length = 0 then
    (sl, none)
  else
    let batch := sl.batchQueue
    let sl := { sl with batchQueue := [], lastBatchTime := now }
    match serializeBatch Marshal batch with
    | .error _ => (sl, some { batch := batch, data := none })
    | .ok data => (sl, some { batch := batch, data := some data })

/-- The critical section of the `req := <-sl.proposeC` case of `runRaft`:
appends the request and reports whether the buffer reached `maxBatchSize`. -/
def enqueue (sl : ShardLeader) (req : PrepareRequest) : ShardLeader × Bool :=
  let sl := { sl with batchQueue := sl.batchQueue ++ [req] }
  let shouldFlush := decide ((sl.batchQueue.length : Int) ≥ sl.maxBatchSize)
  (sl, shouldFlush)

/-- One scheduling step of the batcher.

* `timer now`: the ticker of `runBatcher` fires and calls `flushBatch`.
* `inbound req between now`: `runRaft` takes `req` from `proposeC` and
  appends it under the lock; after it releases the lock the timer task runs
  one `flushBatch` for every clock value in `between`; then, if the buffer had
  reached `maxBatchSize`, `runRaft` calls `flushBatch` itself. -/
inductive BatcherStep where
  | timer (now : Time)
  | inbound (req : PrepareRequest) (between : List Time) (now : Time)
deriving DecidableEq, Repr

/-- A state of the batcher together with the flushes made so far, oldest
first. -/
structure BatcherRun where
  sl : ShardLeader
  flushes : List Flushed
deriving DecidableEq, Repr

/-- Calls `flushBatch` and records the flush, if one happened. -/
def BatcherRun.flush (Marshal : PrepareRequestBatch → Except String Bytes) (now : Time)
    (r : BatcherRun) : BatcherRun :=
  match flushBatch Marshal now r.sl with
  | (sl, none) => { sl := sl, flushes := r.flushes }
  | (sl, some f) => { sl := sl, flushes := r.flushes ++ [f] }

/-- Executes one scheduling step. -/
def BatcherRun.step (Marshal : PrepareRequestBatch → Except String Bytes)
    (r : BatcherRun) : BatcherStep → BatcherRun
  | .timer now => r.flush Marshal now
  | .inbound req between now =>
    let (sl, shouldFlush) := enqueue r.sl req
    let r := between.foldl (fun r t => r.flush Marshal t) { r with sl := sl }
    if shouldFlush then r.flush Marshal now else r

/-- Executes a schedule from left to right. -/
def BatcherRun.exec (Marshal : PrepareRequestBatch → Except String Bytes)
    (r : BatcherRun) (steps : List BatcherStep) : BatcherRun :=
  steps.foldl (BatcherRun.step Marshal) r

/-! ## Wire format of a batch

The encoder and decoder of `PrepareRequestBatch` are not part of
`shard_leader.go`.  The format below follows the specification: an ordered
list of requests, each with TxID, ShardID, ReadSet, WriteSet and Unix-second
timestamp, in a length-prefixed, tag-based encoding. -/

namespace Wire

/-- Base-128 digits of `n`, least significant first, every byte but the last
with bit 7 set; `fuel` bounds the number of continuation bytes. -/
def putUvarintAux : Nat → Nat → Bytes
  | 0, n => [UInt8.ofNat n]
  | fuel + 1, n =>
    if n < 128 then [UInt8.ofNat n]
    else UInt8.ofNat (n % 128 + 128) :: putUvarintAux fuel (n / 128)

/-- The variable-length encoding of a natural number. -/
def putUvarint (n : Nat) : Bytes := putUvarintAux n n

/-- Reads one variable-length natural number and returns the unread bytes. -/
def getUvarint : Bytes → Option (Nat × Bytes)
  | [] => none
  | b :: rest =>
    if b.toNat < 128 then some (b.toNat, rest)
    else
      match getUvarint rest with
      | none => none
      | some (n, rest') => some (b.toNat - 128 + 128 * n, rest')

/-- Maps the integers onto the naturals: 0, -1, 1, -2, ... become 0, 1, 2, 3, ... -/
def zigzag (i : Int) : Nat := if 0 ≤ i then (2 * i).toNat else (-(2 * i) - 1).toNat

/-- The inverse of `zigzag`. -/
def unzigzag (n : Nat) : Int := if n % 2 = 0 then (n / 2 : Nat) else -((n / 2 : Nat) : Int) - 1

/-- A signed integer as a variable-length number. -/
def putInt (i : Int) : Bytes := putUvarint (zigzag i)

/-- Reads a signed integer. -/
def getInt (bs : Bytes) : Option (Int × Bytes) :=
  match getUvarint bs with
  | none => none
  | some (n, rest) => some (unzigzag n, rest)

/-- A sequence as its length followed by its elements. -/
def putMany {α : Type} (putOne : α → Bytes) (xs : List α) : Bytes :=
  putUvarint xs.length ++ xs.flatMap putOne

/-- Reads `n` elements one after the other. -/
def getN {α : Type} (getOne : Bytes → Option (α × Bytes)) : Nat → Bytes → Option (List α × Bytes)
  | 0, bs => some ([], bs)
  | n + 1, bs =>
    match getOne bs with
    | none => none
    | some (x, rest) =>
      match getN getOne n rest with
      | none => none
      | some (xs, rest') => some (x :: xs, rest')

/-- Reads a length and then that many elements. -/
def getMany {α : Type} (getOne : Bytes → Option (α × Bytes)) (bs : Bytes) :
    Option (List α × Bytes) :=
  match getUvarint bs with
  | none => none
  | some (n, rest) => getN getOne n rest

/-- A byte slice: its length, then the bytes. -/
def putBytes (b : Bytes) : Bytes := putUvarint b.length ++ b

/-- Reads a byte slice. -/
def getBytes (bs : Bytes) : Option (Bytes × Bytes) :=
  match getUvarint bs with
  | none => none
  | some (n, rest) => if rest.length < n then none else some (rest.take n, rest.drop n)

/-- One character as the variable-length number of its code point. -/
def putChar (c : Char) : Bytes := putUvarint c.toNat

/-- Reads one character. -/
def getChar (bs : Bytes) : Option (Char × Bytes) :=
  match getUvarint bs with
  | none => none
  | some (n, rest) => some (Char.ofNat n, rest)

/-- A string: its length, then its characters. -/
def putString (s : String) : Bytes := putMany putChar s.data

/-- Reads a string. -/
def getString (bs : Bytes) : Option (String × Bytes) :=
  match getMany getChar bs with
  | none => none
  | some (cs, rest) => some (String.mk cs, rest)

/-- One map entry: the key, then the value. -/
def putEntry (e : String × Bytes) : Bytes := putString e.1 ++ putBytes e.2

/-- Reads one map entry. -/
def getEntry (bs : Bytes) : Option ((String × Bytes) × Bytes) :=
  match getString bs with
  | none => none
  | some (k, rest) =>
    match getBytes rest with
    | none => none
    | some (v, rest') => some ((k, v), rest')

/-- A map: the number of entries, then the entries in iteration order. -/
def putMap (m : GoMap Bytes) : Bytes := putMany putEntry m.entries

/-- Reads a map: the entries are stored one after the other into a fresh
map, so a key that occurs twice keeps its last value. -/
def getMap (bs : Bytes) : Option (GoMap Bytes × Bytes) :=
  match getMany getEntry bs with
  | none => none
  | some (es, rest) => some (es.foldl (fun m e => m.set e.1 e.2) GoMap.empty, rest)

/-- Consumes the tag byte `t`. -/
def getTag (t : UInt8) : Bytes → Option Bytes
  | [] => none
  | b :: rest => if b = t then some rest else none

/-- One request: the five fields, each behind its tag. -/
def putRequest (r : PrepareRequestProto) : Bytes :=
  [1] ++ putString r.TxID ++ ([2] ++ putString r.ShardID) ++ ([3] ++ putMap r.ReadSet)
    ++ ([4] ++ putMap r.WriteSet) ++ ([5] ++ putInt r.Timestamp)

/-- Reads one request. -/
def getRequest (bs : Bytes) : Option (PrepareRequestProto × Bytes) := do
  let bs ← getTag 1 bs
  let (txID, bs) ← getString bs
  let bs ← getTag 2 bs
  let (shardID, bs) ← getString bs
  let bs ← getTag 3 bs
  let (readSet, bs) ← getMap bs
  let bs ← getTag 4 bs
  let (writeSet, bs) ← getMap bs
  let bs ← getTag 5 bs
  let (timestamp, bs) ← getInt bs
  pure ({ TxID := txID, ShardID := shardID, ReadSet := readSet, WriteSet := writeSet,
          Timestamp := timestamp }, bs)

end Wire

/-- Modelled from the spec: the encoder `PrepareRequestBatch.Marshal`, which
`shard_leader.go` calls but does not define.  The batch is written as the
ordered list of its requests. -/
def PrepareRequestBatch.Marshal (b : PrepareRequestBatch) : Except String Bytes :=
  .ok (Wire.putMany Wire.putRequest b.Requests)

/-- Modelled from the spec: the decoder `PrepareRequestBatch.Unmarshal`, which
`shard_leader.go` calls but does not define.  It fails on a payload that is
cut short, carries a wrong tag, or has bytes left over. -/
def PrepareRequestBatch.Unmarshal (data : Bytes) : Except String PrepareRequestBatch :=
  match Wire.getMany Wire.getRequest data with
  | none => .error "malformed batch"
  | some (rs, []) => .ok { Requests := rs }
  | some (_, _ :: _) => .error "trailing bytes"

/-! ## Sample inputs -/

/-- A fresh replica as `NewShardLeader` builds it for the harness. -/
def freshLeader : ShardLeader :=
  { shardID := "experiment-shard"
    commitIndex := 0
    variableMap := GoMap.empty
    batchQueue := []
    maxBatchSize := 50
    lastBatchTime := 0
    commitC := []
    requestsHandled := 0 }

/-- A replica whose map holds the keys `a` and `b`, written by `tx-1` and
`tx-2`. -/
def twoWriters : ShardLeader :=
  { freshLeader with
    variableMap := ⟨[("a", { Value := [1], DependentTxID := "tx-1", ExpiryTime := 10,
                             HasDependency := false }),
                     ("b", { Value := [2], DependentTxID := "tx-2", ExpiryTime := 20,
                             HasDependency := false })]⟩ }

/-- A request that reads `a` and `b`, visited in this order, and writes `c`. -/
def readsAB : PrepareRequestProto :=
  { TxID := "tx-3", ShardID := "experiment-shard"
    ReadSet := ⟨[("a", []), ("b", [])]⟩, WriteSet := ⟨[("c", [3])]⟩, Timestamp := 0 }

/-- The request `readsAB` with its read set visited in the other order. -/
def readsBA : PrepareRequestProto :=
  { readsAB with ReadSet := ⟨[("b", []), ("a", [])]⟩ }

/-- The replica `twoWriters` as another node holds it: the same writers under
the same keys, stored in another order and stamped by that node's own clock. -/
def twoWritersLater : ShardLeader :=
  { freshLeader with
    variableMap := ⟨[("b", { Value := [2], DependentTxID := "tx-2", ExpiryTime := 21,
                             HasDependency := false }),
                     ("a", { Value := [1], DependentTxID := "tx-1", ExpiryTime := 11,
                             HasDependency := false })]⟩ }

/-- A request that reads `a` and writes `a` and `b`, visited in this order. -/
def readsAwritesAB : PrepareRequestProto :=
  { TxID := "tx-4", ShardID := "experiment-shard"
    ReadSet := ⟨[("a", [])]⟩, WriteSet := ⟨[("a", [1]), ("b", [2])]⟩, Timestamp := 0 }

/-- The request `readsAwritesAB` with its write set visited in the other order. -/
def readsAwritesBA : PrepareRequestProto :=
  { readsAwritesAB with WriteSet := ⟨[("b", [2]), ("a", [1])]⟩ }

/-- A replica whose commit stream holds 1000 proofs that nobody has read. -/
def fullLeader : ShardLeader :=
  { twoWriters with
    commitIndex := 4
    requestsHandled := 1000
    commitC := List.replicate 1000
      { TxID := "tx-0", ShardID := "experiment-shard", CommitIndex := 1, LeaderID := 1,
        Signature := [], Term := 1 } }

/-- A log entry whose payload is cut short: it announces one request and
carries none. -/
def brokenEntry : Entry := { Term := 2, Index := 5, Data := [1] }

/-- A clock that shows 1000 ns, then 2000 ns, ..., under leader 1. -/
def sampleWorld : World := { now := fun i => 1000 * (i + 1), lead := fun _ => 1 }

/-- The wire form of the harness request `tx-A`: no reads, one write to the
hot key. -/
def txA : PrepareRequestProto :=
  { TxID := "tx-A", ShardID := "experiment-shard"
    ReadSet := ⟨[]⟩, WriteSet := ⟨[("hot-key", [97])]⟩, Timestamp := 1700000000 }

/-- The wire form of the harness request `tx-B`, which writes the hot key as
well. -/
def txB : PrepareRequestProto :=
  { TxID := "tx-B", ShardID := "experiment-shard"
    ReadSet := ⟨[]⟩, WriteSet := ⟨[("hot-key", [98])]⟩, Timestamp := 1700000001 }

/-- An entry that carries `tx-A` and `tx-B` in one batch. -/
def entryAB : Entry := { Term := 2, Index := 7, Data := Wire.putMany Wire.putRequest [txA, txB] }

/-- An entry that carries `tx-A` alone. -/
def entryA : Entry := { Term := 2, Index := 7, Data := Wire.putMany Wire.putRequest [txA] }

/-- An entry that carries `tx-B` alone. -/
def entryB : Entry := { Term := 2, Index := 8, Data := Wire.putMany Wire.putRequest [txB] }

/-- A harness request on the hot key, stamped in the year 2023. -/
def clientA : PrepareRequest :=
  { TxID := "tx-1-0", ShardID := "experiment-shard"
    ReadSet := ⟨[]⟩, WriteSet := ⟨[("hot-key", [118, 97, 108, 117, 101])]⟩
    Timestamp := 1700000000123456789 }

/-- A request with two reads and two writes, stamped before 1970. -/
def clientB : PrepareRequest :=
  { TxID := "tx-1-1", ShardID := "experiment-shard"
    ReadSet := ⟨[("key-1", []), ("hot-key", [1])]⟩
    WriteSet := ⟨[("key-1", [118, 97, 108, 117, 101]), ("key-2", [])]⟩
    Timestamp := -1500000000 }

/-- A replica that flushes as soon as two requests wait. -/
def smallBatcher : ShardLeader := { freshLeader with maxBatchSize := 2 }

/-- A schedule with an idle timer tick, a timer flush of one request, and a
timer flush that takes a full buffer just before the size-triggered flush. -/
def sampleSchedule : List BatcherStep :=
  [.timer 5, .inbound clientA [] 10, .timer 20, .inbound clientB [] 30,
    .inbound clientA [35] 40, .inbound clientB [] 50]

/-- Two dependency maps hold records under the same keys and name the same
transaction under each of them; values, expiry times and flags may differ. -/
def SameWriters (vm vm' : GoMap TransactionDependencyInfo) : Prop :=
  ∀ k, (vm.get? k).map (fun i => i.DependentTxID)
    = (vm'.get? k).map (fun i => i.DependentTxID)

/-- The records under the visited keys `ks` that exist all name the same
transaction. -/
def SameWriter (variableMap : GoMap TransactionDependencyInfo) (ks : List String) : Prop :=
  ∀ k ∈ ks, ∀ k' ∈ ks, ∀ i i' : TransactionDependencyInfo,
    variableMap.get? k = some i → variableMap.get? k' = some i' →
      i.DependentTxID = i'.DependentTxID

/-- The requests that a schedule takes from `proposeC`, in arrival order. -/
def arrivals : List BatcherStep → List PrepareRequest
  | [] => []
  | .timer _ :: rest => arrivals rest
  | .inbound req _ _ :: rest => req :: arrivals rest

/-- The batches taken by the flushes of a run, one after the other, followed
by the requests that still wait in the buffer. -/
def BatcherRun.requests (r : BatcherRun) : List PrepareRequest :=
  r.flushes.flatMap Flushed.batch ++ r.sl.batchQueue

/-- A recorded flush is in order under the size limit `M`: its batch holds
between 1 and `M` requests, and the bytes handed to the consensus driver, if
any, are the serialization of that batch. -/
def Flushed.Good (Marshal : PrepareRequestBatch → Except String Bytes) (M : Int) (f : Flushed) :
    Prop :=
  1 ≤ f.batch.length ∧ (f.batch.length : Int) ≤ M
    ∧ ∀ data, f.data = some data → serializeBatch Marshal f.batch = .ok data

/-! ## Lemmas on maps -/

namespace GoMap

variable {V : Type}

theorem lookupEntry_setEntry_self (k : String) (v : V) (l : List (String × V)) :
    lookupEntry k (setEntry k v l) = some v := by
  induction l with
  | nil => simp [setEntry, lookupEntry]
  | cons e rest ih =>
    by_cases h : e.1 = k
    · simp [setEntry, lookupEntry, h]
    · simp [setEntry, lookupEntry, h, ih]

theorem lookupEntry_setEntry_ne {k k' : String} (h : k' ≠ k) (v : V) (l : List (String × V)) :
    lookupEntry k' (setEntry k v l) = lookupEntry k' l := by
  induction l with
  | nil => simp [setEntry, lookupEntry, Ne.symm h]
  | cons e rest ih =>
    by_cases he : e.1 = k
    · have h2 : ¬ e.1 = k' := fun h3 => h (h3.symm.trans he)
      simp [setEntry, lookupEntry, he, h2, Ne.symm h]
    · by_cases h2 : e.1 = k'
      · have h3 : ¬ k' = k := h
        simp [setEntry, lookupEntry, h2, h3]
      · simp [setEntry, lookupEntry, he, h2, ih]

theorem get?_set_self (m : GoMap V) (k : String) (v : V) : (m.set k v).get? k = some v :=
  lookupEntry_setEntry_self k v m.entries

theorem get?_set_ne (m : GoMap V) {k k' : String} (h : k' ≠ k) (v : V) :
    (m.set k v).get? k' = m.get? k' :=
  lookupEntry_setEntry_ne h v m.entries

theorem lookupEntry_isSome (k : String) (l : List (String × V)) :
    (lookupEntry k l).isSome = true ↔ k ∈ l.map Prod.fst := by
  induction l with
  | nil => simp [lookupEntry]
  | cons e rest ih =>
    by_cases h : e.1 = k
    · simp [lookupEntry, h]
    · have h2 : ¬ k = e.1 := fun h3 => h h3.symm
      simp [lookupEntry, h, h2, ih]

theorem get?_isSome (m : GoMap V) (k : String) : (m.get? k).isSome = true ↔ k ∈ m.keys :=
  lookupEntry_isSome k m.entries

theorem mem_keys_of_get? {m : GoMap V} {k : String} {v : V} (h : m.get? k = some v) :
    k ∈ m.keys :=
  (m.get?_isSome k).1 (by simp [h])

/-- Storing a value per key of `ks`: the keys of `ks` hold their value, the
others keep what they had. -/
theorem get?_foldl_set (f : String → V) (ks : List String) (m : GoMap V) (k : String) :
    (ks.foldl (fun m key => m.set key (f key)) m).get? k
      = if k ∈ ks then some (f k) else m.get? k := by
  induction ks generalizing m with
  | nil => simp
  | cons key rest ih =>
    rw [List.foldl_cons, ih]
    by_cases h1 : k ∈ rest
    · simp [h1]
    · by_cases h2 : k = key
      · subst h2
        simp [h1, get?_set_self]
      · simp [h1, h2, get?_set_ne _ h2]

end GoMap

/-! ## Dependency map: update -/

/-- The map after `updateDependencyMap`, key by key. -/
theorem updateDependencyMap_get? (sl : ShardLeader) (req : PrepareRequestProto) (hasDep : Bool)
    (depTxID : String) (commitIndex : Nat) (now : Time) (k : String) :
    (updateDependencyMap sl req hasDep depTxID commitIndex now).variableMap.get? k
      = if k ∈ req.WriteSet.keys then
          some { Value := (req.WriteSet.get? k).getD []
                 DependentTxID := req.TxID
                 ExpiryTime := now + 300000000000
                 HasDependency := hasDep }
        else sl.variableMap.get? k := by
  have h := GoMap.get?_foldl_set
    (fun key => ({ Value := (req.WriteSet.get? key).getD []
                   DependentTxID := req.TxID
                   ExpiryTime := now + 300000000000
                   HasDependency := hasDep } : TransactionDependencyInfo))
    req.WriteSet.keys sl.variableMap k
  simpa [updateDependencyMap, Time.Add, DefaultExpiryDuration, Minute, Second] using h

/-- The record that `updateDependencyMap` leaves under a key of the write set. -/
theorem updateDependencyMap_get?_written (sl : ShardLeader) (req : PrepareRequestProto)
    (hasDep : Bool) (depTxID : String) (commitIndex : Nat) (now : Time) (k : String) (v : Bytes)
    (hk : req.WriteSet.get? k = some v) :
    (updateDependencyMap sl req hasDep depTxID commitIndex now).variableMap.get? k
      = some { Value := v
               DependentTxID := req.TxID
               ExpiryTime := now + 300000000000
               HasDependency := hasDep } := by
  rw [updateDependencyMap_get?, if_pos (GoMap.mem_keys_of_get? hk), hk]
  rfl

/-- C1: after `updateDependencyMap(R, verdict)` run at time `now`, every key
`k` of `R.WriteSet`, with `R.WriteSet[k] = v`, maps to the record with
`Value = v`, `DependentTxID = R.TxID`, `HasDependency = verdict` and
`ExpiryTime = now + 5 minutes` (in nanoseconds). -/
theorem updateDependencyMap_writes (sl : ShardLeader) (req : PrepareRequestProto)
    (hasDep : Bool) (depTxID : String) (commitIndex : Nat) (now : Time) (k : String) (v : Bytes)
    (hk : req.WriteSet.get? k = some v) :
    (updateDependencyMap sl req hasDep depTxID commitIndex now).variableMap.get? k
      = some { Value := v
               DependentTxID := req.TxID
               ExpiryTime := now + 5 * 60 * 1000000000
               HasDependency := hasDep } := by
  rw [updateDependencyMap_get?, if_pos (GoMap.mem_keys_of_get? hk), hk]
  simp

/-- C1 at a concrete input: `tx-3` writes `c` into a map that holds `a` and `b`. -/
theorem updateDependencyMap_writes_witness :
    readsAB.WriteSet.get? "c" = some [3] ∧
    (updateDependencyMap twoWriters readsAB true "tx-1" 7 1000).variableMap.get? "c"
      = some { Value := [3], DependentTxID := "tx-3", ExpiryTime := 1000 + 5 * 60 * 1000000000,
               HasDependency := true } :=
  ⟨by decide, updateDependencyMap_writes twoWriters readsAB true "tx-1" 7 1000 "c" [3] (by decide)⟩

/-! ## Dependency map: evaluation -/

theorem scanKeys_eq_none (vm : GoMap TransactionDependencyInfo) (ks : List String) :
    scanKeys vm ks = none ↔ ∀ k ∈ ks, vm.get? k = none := by
  induction ks with
  | nil => simp [scanKeys]
  | cons key rest ih =>
    cases h : vm.get? key with
    | none => simp [scanKeys, h, ih]
    | some info => simp [scanKeys, h]

theorem scanKeys_eq_some {vm : GoMap TransactionDependencyInfo} {ks : List String} {id : String}
    (h : scanKeys vm ks = some id) :
    ∃ k ∈ ks, ∃ info, vm.get? k = some info ∧ info.DependentTxID = id := by
  induction ks with
  | nil => simp [scanKeys] at h
  | cons key rest ih =>
    cases hk : vm.get? key with
    | none =>
      simp only [scanKeys, hk] at h
      obtain ⟨k, hmem, info, h1, h2⟩ := ih h
      exact ⟨k, List.mem_cons_of_mem _ hmem, info, h1, h2⟩
    | some info =>
      simp only [scanKeys, hk, Option.some.injEq] at h
      exact ⟨key, List.mem_cons_self _ _, info, hk, h⟩

theorem scanKeys_isSome (vm : GoMap TransactionDependencyInfo) (ks : List String) :
    (∃ id, scanKeys vm ks = some id) ↔ ∃ k ∈ ks, (vm.get? k).isSome = true := by
  constructor
  · rintro ⟨id, h⟩
    obtain ⟨k, hmem, info, h1, _⟩ := scanKeys_eq_some h
    exact ⟨k, hmem, by simp [h1]⟩
  · rintro ⟨k, hmem, hk⟩
    cases h : scanKeys vm ks with
    | some id => exact ⟨id, rfl⟩
    | none =>
      have := (scanKeys_eq_none vm ks).1 h k hmem
      simp [this] at hk

/-- C2: `checkDependencies` returns `(true, id)` exactly when some key of the
read set or of the write set has a record, and `(false, "")` otherwise; when a
read key has a record, `id` is the `DependentTxID` stored under a read key
that has one, and when none has but a write key does, `id` is the
`DependentTxID` stored under a write key that has one. -/
theorem checkDependencies_spec (sl : ShardLeader) (req : PrepareRequestProto) :
    ((∃ id, checkDependencies sl req = (true, id)) ↔
      ∃ k, (k ∈ req.ReadSet.keys ∨ k ∈ req.WriteSet.keys) ∧
        (sl.variableMap.get? k).isSome = true)
    ∧ ((¬ ∃ k, (k ∈ req.ReadSet.keys ∨ k ∈ req.WriteSet.keys) ∧
          (sl.variableMap.get? k).isSome = true) →
        checkDependencies sl req = (false, ""))
    ∧ ((∃ k ∈ req.ReadSet.keys, (sl.variableMap.get? k).isSome = true) →
        ∃ k ∈ req.ReadSet.keys, ∃ info, sl.variableMap.get? k = some info ∧
          checkDependencies sl req = (true, info.DependentTxID))
    ∧ ((¬ ∃ k ∈ req.ReadSet.keys, (sl.variableMap.get? k).isSome = true) →
        (∃ k ∈ req.WriteSet.keys, (sl.variableMap.get? k).isSome = true) →
        ∃ k ∈ req.WriteSet.keys, ∃ info, sl.variableMap.get? k = some info ∧
          checkDependencies sl req = (true, info.DependentTxID)) := by
  have hr := scanKeys_isSome sl.variableMap req.ReadSet.keys
  have hw := scanKeys_isSome sl.variableMap req.WriteSet.keys
  cases h1 : scanKeys sl.variableMap req.ReadSet.keys with
  | some id =>
    obtain ⟨k, hmem, info, hk, hid⟩ := scanKeys_eq_some h1
    have hc : checkDependencies sl req = (true, info.DependentTxID) := by
      simp [checkDependencies, h1, hid]
    have hex : ∃ k ∈ req.ReadSet.keys, (sl.variableMap.get? k).isSome = true :=
      ⟨k, hmem, by simp [hk]⟩
    refine ⟨⟨fun _ => ⟨k, Or.inl hmem, by simp [hk]⟩, fun _ => ⟨_, hc⟩⟩, ?_, ?_, ?_⟩
    · intro hn
      exact absurd ⟨k, Or.inl hmem, by simp [hk]⟩ hn
    · intro _
      exact ⟨k, hmem, info, hk, hc⟩
    · intro hn
      exact absurd hex hn
  | none =>
    have hnr : ¬ ∃ k ∈ req.ReadSet.keys, (sl.variableMap.get? k).isSome = true := by
      rw [← hr, h1]
      simp
    cases h2 : scanKeys sl.variableMap req.WriteSet.keys with
    | some id =>
      obtain ⟨k, hmem, info, hk, hid⟩ := scanKeys_eq_some h2
      have hc : checkDependencies sl req = (true, info.DependentTxID) := by
        simp [checkDependencies, h1, h2, hid]
      refine ⟨⟨fun _ => ⟨k, Or.inr hmem, by simp [hk]⟩, fun _ => ⟨_, hc⟩⟩, ?_, ?_, ?_⟩
      · intro hn
        exact absurd ⟨k, Or.inr hmem, by simp [hk]⟩ hn
      · intro hex
        exact absurd hex hnr
      · intro _ _
        exact ⟨k, hmem, info, hk, hc⟩
    | none =>
      have hnw : ¬ ∃ k ∈ req.WriteSet.keys, (sl.variableMap.get? k).isSome = true := by
        rw [← hw, h2]
        simp
      have hc : checkDependencies sl req = (false, "") := by
        simp [checkDependencies, h1, h2]
      have hnone : ¬ ∃ k, (k ∈ req.ReadSet.keys ∨ k ∈ req.WriteSet.keys) ∧
          (sl.variableMap.get? k).isSome = true := by
        rintro ⟨k, hk | hk, hs⟩
        · exact hnr ⟨k, hk, hs⟩
        · exact hnw ⟨k, hk, hs⟩
      refine ⟨⟨?_, fun hex => absurd hex hnone⟩, fun _ => hc, fun hex => absurd hex hnr,
        fun _ hex => absurd hex hnw⟩
      rintro ⟨id, hid⟩
      rw [hc] at hid
      simp at hid

/-! ## Dependency map: iteration order -/

theorem scanKeys_isSome_perm (vm : GoMap TransactionDependencyInfo) {ks ks' : List String}
    (h : ks.Perm ks') : (scanKeys vm ks).isSome = (scanKeys vm ks').isSome := by
  cases h1 : scanKeys vm ks with
  | none =>
    have h2 : scanKeys vm ks' = none :=
      (scanKeys_eq_none vm ks').2 fun k hk => (scanKeys_eq_none vm ks).1 h1 k (h.mem_iff.2 hk)
    simp [h2]
  | some id =>
    cases h2 : scanKeys vm ks' with
    | some id' => rfl
    | none =>
      obtain ⟨k, hmem, info, hk, _⟩ := scanKeys_eq_some h1
      have := (scanKeys_eq_none vm ks').1 h2 k (h.mem_iff.1 hmem)
      simp [this] at hk

theorem scanKeys_perm (vm : GoMap TransactionDependencyInfo) {ks ks' : List String}
    (h : ks.Perm ks') (hs : SameWriter vm ks) : scanKeys vm ks = scanKeys vm ks' := by
  have hp := scanKeys_isSome_perm vm h
  cases h1 : scanKeys vm ks with
  | none =>
    rw [h1] at hp
    cases h2 : scanKeys vm ks' with
    | none => rfl
    | some id' => simp [h2] at hp
  | some id =>
    rw [h1] at hp
    cases h2 : scanKeys vm ks' with
    | none => simp [h2] at hp
    | some id' =>
      obtain ⟨k, hmem, info, hk, hid⟩ := scanKeys_eq_some h1
      obtain ⟨k', hmem', info', hk', hid'⟩ := scanKeys_eq_some h2
      have := hs k hmem k' (h.mem_iff.2 hmem') info info' hk hk'
      rw [← hid, ← hid', this]

theorem keys_perm {V : Type} {m m' : GoMap V} (h : m.entries.Perm m'.entries) :
    m.keys.Perm m'.keys :=
  h.map Prod.fst

theorem scanKeys_congr {vm vm' : GoMap TransactionDependencyInfo}
    (h : ∀ k, vm.get? k = vm'.get? k) (ks : List String) : scanKeys vm ks = scanKeys vm' ks := by
  induction ks with
  | nil => rfl
  | cons key rest ih => simp only [scanKeys, h key, ih]

theorem scanKeys_congr_writers {vm vm' : GoMap TransactionDependencyInfo}
    (h : SameWriters vm vm') (ks : List String) : scanKeys vm ks = scanKeys vm' ks := by
  induction ks with
  | nil => rfl
  | cons key rest ih =>
    have hk := h key
    cases h1 : vm.get? key <;> cases h2 : vm'.get? key <;>
      simp [scanKeys, h1, h2, ih] at hk ⊢
    exact hk

/-- The transaction that `checkDependencies` names is the writer recorded
under a read key that has a record or, when no read key has one, under a
write key that has one. -/
theorem checkDependencies_names_writer (sl : ShardLeader) (req : PrepareRequestProto)
    (id : String) (h : checkDependencies sl req = (true, id)) :
    ∃ k info, sl.variableMap.get? k = some info ∧ info.DependentTxID = id
      ∧ (k ∈ req.ReadSet.keys
        ∨ ((∀ k' ∈ req.ReadSet.keys, sl.variableMap.get? k' = none) ∧ k ∈ req.WriteSet.keys)) := by
  unfold checkDependencies at h
  cases h1 : scanKeys sl.variableMap req.ReadSet.keys with
  | some id1 =>
    simp only [h1, Prod.mk.injEq, true_and] at h
    obtain ⟨k, hmem, info, hk, hid⟩ := scanKeys_eq_some h1
    exact ⟨k, info, hk, hid.trans h, Or.inl hmem⟩
  | none =>
    cases h2 : scanKeys sl.variableMap req.WriteSet.keys with
    | some id2 =>
      simp only [h1, h2, Prod.mk.injEq, true_and] at h
      obtain ⟨k, hmem, info, hk, hid⟩ := scanKeys_eq_some h2
      exact ⟨k, info, hk, hid.trans h, Or.inr ⟨(scanKeys_eq_none _ _).1 h1, hmem⟩⟩
    | none => simp [h1, h2] at h

/-- C5, as the code has it: take two replicas whose maps name the same writer
under the same keys (expiry times may differ), and two requests that differ
only in the order in which their read set and their write set are visited.
`checkDependencies` reports the same `hasDependency` on both.  When it
answers `(true, id)`, `id` is the `DependentTxID` stored under a read key
that has a record or, when no read key has one, under a write key that has
one.  It reports the same pair `(hasDependency, dependentTxID)` on both when
the records that exist under read keys all carry the same `DependentTxID`
and, in case no read key has a record, so do the records that exist under
write keys. -/
theorem checkDependencies_perm (sl sl' : ShardLeader) (req req' : PrepareRequestProto)
    (hmap : SameWriters sl.variableMap sl'.variableMap)
    (hr : req.ReadSet.entries.Perm req'.ReadSet.entries)
    (hw : req.WriteSet.entries.Perm req'.WriteSet.entries) :
    (checkDependencies sl req).1 = (checkDependencies sl' req').1
    ∧ (∀ id, checkDependencies sl req = (true, id) →
        ∃ k info, sl.variableMap.get? k = some info ∧ info.DependentTxID = id
          ∧ (k ∈ req.ReadSet.keys
            ∨ ((∀ k' ∈ req.ReadSet.keys, sl.variableMap.get? k' = none)
              ∧ k ∈ req.WriteSet.keys)))
    ∧ (SameWriter sl.variableMap req.ReadSet.keys →
        ((∀ k ∈ req.ReadSet.keys, sl.variableMap.get? k = none) →
          SameWriter sl.variableMap req.WriteSet.keys) →
        checkDependencies sl req = checkDependencies sl' req') := by
  have h1 := scanKeys_isSome_perm sl.variableMap (keys_perm hr)
  have h2 := scanKeys_isSome_perm sl.variableMap (keys_perm hw)
  have c1 := scanKeys_congr_writers hmap req'.ReadSet.keys
  have c2 := scanKeys_congr_writers hmap req'.WriteSet.keys
  refine ⟨?_, checkDependencies_names_writer sl req, ?_⟩
  · unfold checkDependencies
    rw [← c1, ← c2]
    cases hA : scanKeys sl.variableMap req.ReadSet.keys <;>
      cases hB : scanKeys sl.variableMap req'.ReadSet.keys <;>
      cases hC : scanKeys sl.variableMap req.WriteSet.keys <;>
      cases hD : scanKeys sl.variableMap req'.WriteSet.keys <;>
      simp [hA, hB, hC, hD] at h1 h2 ⊢
  · intro sr sw
    unfold checkDependencies
    rw [← c1, ← c2, ← scanKeys_perm sl.variableMap (keys_perm hr) sr]
    cases hA : scanKeys sl.variableMap req.ReadSet.keys with
    | some id => rfl
    | none =>
      rw [← scanKeys_perm sl.variableMap (keys_perm hw)
        (sw ((scanKeys_eq_none _ _).1 hA))]

/-- C5 fails as stated: with records for `a` (written by `tx-1`) and `b`
(written by `tx-2`), a request that reads both is told `tx-1` when `a` is
visited first and `tx-2` when `b` is visited first. -/
theorem checkDependencies_order_counterexample :
    readsAB.ReadSet.entries.Perm readsBA.ReadSet.entries
    ∧ readsAB.WriteSet = readsBA.WriteSet
    ∧ checkDependencies twoWriters readsAB = (true, "tx-1")
    ∧ checkDependencies twoWriters readsBA = (true, "tx-2")
    ∧ checkDependencies twoWriters readsAB ≠ checkDependencies twoWriters readsBA := by
  refine ⟨?_, rfl, by decide, by decide, by decide⟩
  exact List.Perm.swap _ _ _

theorem sameWriters_twoWriters :
    SameWriters twoWriters.variableMap twoWritersLater.variableMap := by
  intro k
  by_cases ha : k = "a"
  · subst ha
    rfl
  · by_cases hb : k = "b"
    · subst hb
      rfl
    · have ha' : ¬ "a" = k := fun h => ha h.symm
      have hb' : ¬ "b" = k := fun h => hb h.symm
      simp [twoWriters, twoWritersLater, freshLeader, GoMap.get?, GoMap.lookupEntry, ha', hb']

theorem sameWriter_readsA : SameWriter twoWriters.variableMap readsAwritesAB.ReadSet.keys := by
  intro k hk k' hk' i i' h h'
  simp [readsAwritesAB, GoMap.keys] at hk hk'
  subst hk hk'
  rw [h] at h'
  simp only [Option.some.injEq] at h'
  rw [h']

theorem readsA_has_record :
    ¬ ∀ k ∈ readsAwritesAB.ReadSet.keys, twoWriters.variableMap.get? k = none := by
  intro h
  have := h "a" (by decide)
  exact absurd this (by decide)

/-- The amended C5 at a concrete input: two replicas that stamped the same
two records with different clocks, and a request that reads `a` and writes
`a` and `b`, its write set visited in both orders.  The read key decides, so
the two writers found in the write set do not matter. -/
theorem checkDependencies_perm_witness :
    SameWriters twoWriters.variableMap twoWritersLater.variableMap
    ∧ twoWriters.variableMap ≠ twoWritersLater.variableMap
    ∧ readsAwritesAB.ReadSet.entries.Perm readsAwritesBA.ReadSet.entries
    ∧ readsAwritesAB.WriteSet.entries.Perm readsAwritesBA.WriteSet.entries
    ∧ SameWriter twoWriters.variableMap readsAwritesAB.ReadSet.keys
    ∧ (checkDependencies twoWriters readsAwritesAB).1
        = (checkDependencies twoWritersLater readsAwritesBA).1
    ∧ (∃ k info, twoWriters.variableMap.get? k = some info ∧ info.DependentTxID = "tx-1"
        ∧ (k ∈ readsAwritesAB.ReadSet.keys
          ∨ ((∀ k' ∈ readsAwritesAB.ReadSet.keys, twoWriters.variableMap.get? k' = none)
            ∧ k ∈ readsAwritesAB.WriteSet.keys)))
    ∧ checkDependencies twoWriters readsAwritesAB
        = checkDependencies twoWritersLater readsAwritesBA :=
  ⟨sameWriters_twoWriters, by decide, List.Perm.refl _, List.Perm.swap _ _ _, sameWriter_readsA,
    (checkDependencies_perm twoWriters twoWritersLater readsAwritesAB readsAwritesBA
      sameWriters_twoWriters (List.Perm.refl _) (List.Perm.swap _ _ _)).1,
    (checkDependencies_perm twoWriters twoWritersLater readsAwritesAB readsAwritesBA
      sameWriters_twoWriters (List.Perm.refl _) (List.Perm.swap _ _ _)).2.1 "tx-1" (by decide),
    (checkDependencies_perm twoWriters twoWritersLater readsAwritesAB readsAwritesBA
      sameWriters_twoWriters (List.Perm.refl _) (List.Perm.swap _ _ _)).2.2 sameWriter_readsA
      (fun h => absurd h readsA_has_record)⟩

/-! ## Apply path: one request -/

@[simp] theorem updateDependencyMap_commitC (sl : ShardLeader) (req : PrepareRequestProto)
    (hasDep : Bool) (depTxID : String) (commitIndex : Nat) (now : Time) :
    (updateDependencyMap sl req hasDep depTxID commitIndex now).commitC = sl.commitC := rfl

theorem applyRequest_variableMap (lead : Nat) (now : Time) (entry : Entry) (sl : ShardLeader)
    (req : PrepareRequestProto) :
    (applyRequest lead now entry sl req).variableMap
      = (updateDependencyMap sl req (checkDependencies sl req).1 (checkDependencies sl req).2
          entry.Index now).variableMap := by
  unfold applyRequest trySend
  dsimp only
  split <;> rfl

theorem applyRequest_commitC (lead : Nat) (now : Time) (entry : Entry) (sl : ShardLeader)
    (req : PrepareRequestProto) :
    (applyRequest lead now entry sl req).commitC
      = if sl.commitC.length < 1000 then
          sl.commitC ++ [{ TxID := req.TxID
                           ShardID := sl.shardID
                           CommitIndex := sl.commitIndex
                           LeaderID := lead
                           Term := entry.Term
                           Signature := signProof sl req.TxID sl.commitIndex }]
        else sl.commitC := by
  unfold applyRequest trySend
  dsimp only
  simp only [updateDependencyMap_commitC, commitCCap]
  split <;> rfl

theorem applyRequest_requestsHandled (lead : Nat) (now : Time) (entry : Entry)
    (sl : ShardLeader) (req : PrepareRequestProto) :
    (applyRequest lead now entry sl req).requestsHandled = wrapInt64 (sl.requestsHandled + 1) := by
  unfold applyRequest trySend
  dsimp only
  split <;> rfl

theorem applyRequest_commitIndex (lead : Nat) (now : Time) (entry : Entry) (sl : ShardLeader)
    (req : PrepareRequestProto) :
    (applyRequest lead now entry sl req).commitIndex = sl.commitIndex := by
  unfold applyRequest trySend
  dsimp only
  split <;> rfl

theorem applyRequest_shardID (lead : Nat) (now : Time) (entry : Entry) (sl : ShardLeader)
    (req : PrepareRequestProto) :
    (applyRequest lead now entry sl req).shardID = sl.shardID := by
  unfold applyRequest trySend
  dsimp only
  split <;> rfl

theorem wrapInt64_eq {x : Int} (h1 : -2 ^ 63 ≤ x) (h2 : x < 2 ^ 63) : wrapInt64 x = x := by
  unfold wrapInt64
  rw [Int.emod_eq_of_lt (by omega) (by omega)]
  omega

/-- C10: applying a request (evaluation, then update) removes no record:
every key that had a record still has one, a key outside the write set keeps
its record, and the keys afterwards are the keys before together with the
keys of the write set.  Evaluation itself only reads the replica (it returns
its verdict and nothing else), so the update starts from the map as it was
before the evaluation. -/
theorem applyRequest_frame (lead : Nat) (now : Time) (entry : Entry) (sl : ShardLeader)
    (req : PrepareRequestProto) :
    (∀ k, (sl.variableMap.get? k).isSome = true →
        ((applyRequest lead now entry sl req).variableMap.get? k).isSome = true)
    ∧ (∀ k, k ∉ req.WriteSet.keys →
        (applyRequest lead now entry sl req).variableMap.get? k = sl.variableMap.get? k)
    ∧ (∀ k, k ∈ (applyRequest lead now entry sl req).variableMap.keys ↔
        k ∈ sl.variableMap.keys ∨ k ∈ req.WriteSet.keys)
    ∧ (applyRequest lead now entry sl req).variableMap
        = (updateDependencyMap sl req (checkDependencies sl req).1 (checkDependencies sl req).2
            entry.Index now).variableMap := by
  have hget : ∀ k, (applyRequest lead now entry sl req).variableMap.get? k
      = if k ∈ req.WriteSet.keys then
          some { Value := (req.WriteSet.get? k).getD []
                 DependentTxID := req.TxID
                 ExpiryTime := now + 300000000000
                 HasDependency := (checkDependencies sl req).1 }
        else sl.variableMap.get? k := by
    intro k
    rw [applyRequest_variableMap, updateDependencyMap_get?]
  refine ⟨?_, ?_, ?_, applyRequest_variableMap lead now entry sl req⟩
  · intro k hk
    rw [hget]
    split
    · rfl
    · exact hk
  · intro k hk
    rw [hget, if_neg hk]
  · intro k
    rw [← GoMap.get?_isSome, ← GoMap.get?_isSome, hget]
    by_cases hk : k ∈ req.WriteSet.keys
    · simp [hk]
    · simp [hk]

/-- C9: when the commit stream holds its 1000 proofs, applying a request
leaves the stream as it is (still 1000 proofs), writes the record of every
key of the write set, and raises the handled-request counter by one (the
counter is an `int64` below its maximum). -/
theorem applyRequest_full_channel (lead : Nat) (now : Time) (entry : Entry) (sl : ShardLeader)
    (req : PrepareRequestProto) (hfull : sl.commitC.length = 1000)
    (hlo : -2 ^ 63 ≤ sl.requestsHandled) (hhi : sl.requestsHandled < 2 ^ 63 - 1) :
    (applyRequest lead now entry sl req).commitC = sl.commitC
    ∧ (applyRequest lead now entry sl req).commitC.length = 1000
    ∧ (∀ k v, req.WriteSet.get? k = some v →
        (applyRequest lead now entry sl req).variableMap.get? k
          = some { Value := v
                   DependentTxID := req.TxID
                   ExpiryTime := now + 5 * 60 * 1000000000
                   HasDependency := (checkDependencies sl req).1 })
    ∧ (applyRequest lead now entry sl req).requestsHandled = sl.requestsHandled + 1 := by
  have hc : (applyRequest lead now entry sl req).commitC = sl.commitC := by
    rw [applyRequest_commitC, if_neg (by omega)]
  refine ⟨hc, by rw [hc, hfull], ?_, ?_⟩
  · intro k v hk
    rw [applyRequest_variableMap]
    exact updateDependencyMap_get?_written sl req _ _ _ now k v hk
  · rw [applyRequest_requestsHandled]
    exact wrapInt64_eq (by omega) (by omega)

/-- C9 at a concrete input: `tx-3` is applied while 1000 proofs wait. -/
theorem applyRequest_full_channel_witness :
    fullLeader.commitC.length = 1000
    ∧ (-2 ^ 63 ≤ fullLeader.requestsHandled ∧ fullLeader.requestsHandled < 2 ^ 63 - 1)
    ∧ (applyRequest 1 1000 brokenEntry fullLeader readsAB).commitC = fullLeader.commitC
    ∧ (applyRequest 1 1000 brokenEntry fullLeader readsAB).commitC.length = 1000
    ∧ (∀ k v, readsAB.WriteSet.get? k = some v →
        (applyRequest 1 1000 brokenEntry fullLeader readsAB).variableMap.get? k
          = some { Value := v
                   DependentTxID := readsAB.TxID
                   ExpiryTime := 1000 + 5 * 60 * 1000000000
                   HasDependency := (checkDependencies fullLeader readsAB).1 })
    ∧ (applyRequest 1 1000 brokenEntry fullLeader readsAB).requestsHandled
        = fullLeader.requestsHandled + 1 :=
  ⟨List.length_replicate _ _, by decide,
    applyRequest_full_channel 1 1000 brokenEntry fullLeader readsAB (List.length_replicate _ _)
      (by decide) (by decide)⟩

/-! ## Apply path: one entry -/

/-- C8: when the payload of a committed entry fails to decode, `applyEntry`
sets `commitIndex` to the index of the entry and changes neither the
dependency map, nor the commit stream, nor the handled-request counter. -/
theorem applyEntry_decode_error (Unmarshal : Bytes → Except String PrepareRequestBatch)
    (w : World) (sl : ShardLeader) (entry : Entry) (e : String)
    (herr : Unmarshal entry.Data = .error e) :
    (applyEntry Unmarshal w sl entry).commitIndex = entry.Index
    ∧ (applyEntry Unmarshal w sl entry).variableMap = sl.variableMap
    ∧ (applyEntry Unmarshal w sl entry).commitC = sl.commitC
    ∧ (applyEntry Unmarshal w sl entry).requestsHandled = sl.requestsHandled := by
  simp [applyEntry, herr]

/-- C8 at a concrete input: an entry at index 5 whose payload is cut short. -/
theorem applyEntry_decode_error_witness :
    PrepareRequestBatch.Unmarshal brokenEntry.Data = .error "malformed batch"
    ∧ (applyEntry PrepareRequestBatch.Unmarshal sampleWorld twoWriters brokenEntry).commitIndex = 5
    ∧ (applyEntry PrepareRequestBatch.Unmarshal sampleWorld twoWriters brokenEntry).variableMap
        = twoWriters.variableMap
    ∧ (applyEntry PrepareRequestBatch.Unmarshal sampleWorld twoWriters brokenEntry).commitC
        = twoWriters.commitC
    ∧ (applyEntry PrepareRequestBatch.Unmarshal sampleWorld twoWriters brokenEntry).requestsHandled
        = twoWriters.requestsHandled :=
  ⟨rfl, applyEntry_decode_error PrepareRequestBatch.Unmarshal sampleWorld twoWriters brokenEntry
    "malformed batch" rfl⟩

theorem signProof_congr {sl sl' : ShardLeader} (h : sl'.shardID = sl.shardID) (txID : String)
    (commitIndex : Nat) : signProof sl' txID commitIndex = signProof sl txID commitIndex := by
  simp [signProof, h]

/-- The loop of `applyEntry` with room for every proof: the proofs are queued
behind the ones already waiting, one per request, in the order of the
requests. -/
theorem applyRequests_commitC (w : World) (entry : Entry) (rs : List PrepareRequestProto) :
    ∀ (i : Nat) (sl : ShardLeader), sl.commitC.length + rs.length ≤ 1000 →
      ∃ proofs : List PrepareProof,
        (applyRequests w entry i sl rs).commitC = sl.commitC ++ proofs
        ∧ proofs.length = rs.length
        ∧ ∀ j (hj : j < rs.length), proofs[j]? = some
            { TxID := rs[j].TxID
              ShardID := sl.shardID
              CommitIndex := sl.commitIndex
              LeaderID := w.lead (i + j)
              Term := entry.Term
              Signature := signProof sl rs[j].TxID sl.commitIndex } := by
  induction rs with
  | nil =>
    intro i sl _
    exact ⟨[], by simp [applyRequests], rfl, fun j hj => absurd hj (Nat.not_lt_zero j)⟩
  | cons r rest ih =>
    intro i sl hroom
    have hlen : sl.commitC.length < 1000 := by
      simp only [List.length_cons] at hroom
      omega
    have hc := applyRequest_commitC (w.lead i) (w.now i) entry sl r
    rw [if_pos hlen] at hc
    have hs := applyRequest_shardID (w.lead i) (w.now i) entry sl r
    have hi := applyRequest_commitIndex (w.lead i) (w.now i) entry sl r
    obtain ⟨proofs, h1, h2, h3⟩ := ih (i + 1) (applyRequest (w.lead i) (w.now i) entry sl r) (by
      rw [hc]
      simp only [List.length_append, List.length_cons, List.length_nil] at hroom ⊢
      omega)
    refine ⟨({ TxID := r.TxID
               ShardID := sl.shardID
               CommitIndex := sl.commitIndex
               LeaderID := w.lead i
               Term := entry.Term
               Signature := signProof sl r.TxID sl.commitIndex } : PrepareProof) :: proofs,
      ?_, by simp [h2], ?_⟩
    · simp only [applyRequests]
      rw [h1, hc, List.append_assoc]
      rfl
    · intro j hj
      cases j with
      | zero => simp
      | succ j =>
        have hj' : j < rest.length := by
          simp only [List.length_cons] at hj
          omega
        have := h3 j hj'
        rw [hs, hi, signProof_congr hs] at this
        simp only [List.getElem?_cons_succ, List.getElem_cons_succ]
        rw [this]
        have hidx : i + 1 + j = i + (j + 1) := by omega
        rw [hidx]

/-- C3: when the payload of a committed entry decodes to the requests
`r1..rn` and the commit stream has room for `n` more proofs, `applyEntry`
appends exactly `n` proofs to the stream, and the one at position `j` has the
`TxID` of the request at position `j`, the shard ID of the replica, the index
and the term of the entry, and as signature the bytes of
`<ShardID>:<decimal index>:<TxID>`. -/
theorem applyEntry_proofs (Unmarshal : Bytes → Except String PrepareRequestBatch) (w : World)
    (sl : ShardLeader) (entry : Entry) (rs : List PrepareRequestProto)
    (hdec : Unmarshal entry.Data = .ok { Requests := rs })
    (hroom : sl.commitC.length + rs.length ≤ 1000) :
    ∃ proofs : List PrepareProof,
      (applyEntry Unmarshal w sl entry).commitC = sl.commitC ++ proofs
      ∧ proofs.length = rs.length
      ∧ ∀ j (hj : j < rs.length), proofs[j]? = some
          { TxID := rs[j].TxID
            ShardID := sl.shardID
            CommitIndex := entry.Index
            LeaderID := w.lead j
            Term := entry.Term
            Signature :=
              (sl.shardID ++ ":" ++ toString entry.Index ++ ":" ++ rs[j].TxID).toUTF8.data.toList } := by
  obtain ⟨proofs, h1, h2, h3⟩ :=
    applyRequests_commitC w entry rs 0 { sl with commitIndex := entry.Index } hroom
  refine ⟨proofs, ?_, h2, ?_⟩
  · simp only [applyEntry, hdec]
    exact h1
  · intro j hj
    have := h3 j hj
    simpa [signProof] using this

/-- C3 at a concrete input: a fresh replica applies the batch `tx-A`, `tx-B`. -/
theorem applyEntry_proofs_witness :
    PrepareRequestBatch.Unmarshal entryAB.Data = .ok { Requests := [txA, txB] }
    ∧ freshLeader.commitC.length + [txA, txB].length ≤ 1000
    ∧ ∃ proofs : List PrepareProof,
      (applyEntry PrepareRequestBatch.Unmarshal sampleWorld freshLeader entryAB).commitC
        = freshLeader.commitC ++ proofs
      ∧ proofs.length = [txA, txB].length
      ∧ ∀ j (hj : j < [txA, txB].length), proofs[j]? = some
          { TxID := [txA, txB][j].TxID
            ShardID := freshLeader.shardID
            CommitIndex := entryAB.Index
            LeaderID := sampleWorld.lead j
            Term := entryAB.Term
            Signature :=
              (freshLeader.shardID ++ ":" ++ toString entryAB.Index ++ ":"
                ++ [txA, txB][j].TxID).toUTF8.data.toList } :=
  ⟨rfl, by decide,
    applyEntry_proofs PrepareRequestBatch.Unmarshal sampleWorld freshLeader entryAB [txA, txB] rfl
      (by decide)⟩

/-! ## Two writers of one key -/

theorem checkDependencies_congr (sl sl' : ShardLeader) (h : sl'.variableMap = sl.variableMap)
    (req : PrepareRequestProto) : checkDependencies sl' req = checkDependencies sl req := by
  simp [checkDependencies, h]

theorem get?_single {V : Type} {m : GoMap V} {k : String} {v : V} (h : m.entries = [(k, v)]) :
    m.get? k = some v := by
  simp [GoMap.get?, h, GoMap.lookupEntry]

/-- After a request that writes `k`, a request with no reads that writes `k`
is found dependent on it. -/
theorem checkDependencies_after_write (lead : Nat) (now : Time) (entry : Entry)
    (sl : ShardLeader) (A B : PrepareRequestProto) (k : String) (vA vB : Bytes)
    (hAw : A.WriteSet.entries = [(k, vA)]) (hBr : B.ReadSet.entries = [])
    (hBw : B.WriteSet.entries = [(k, vB)]) :
    checkDependencies (applyRequest lead now entry sl A) B = (true, A.TxID) := by
  have hget := updateDependencyMap_get?_written sl A (checkDependencies sl A).1
    (checkDependencies sl A).2 entry.Index now k vA (get?_single hAw)
  rw [← applyRequest_variableMap lead now entry sl A] at hget
  simp [checkDependencies, GoMap.keys, hBr, hBw, scanKeys, hget]

/-- The record under `k` after a request that writes only `k`. -/
theorem applyRequest_get?_single (lead : Nat) (now : Time) (entry : Entry) (sl : ShardLeader)
    (B : PrepareRequestProto) (k : String) (vB : Bytes) (hBw : B.WriteSet.entries = [(k, vB)]) :
    (applyRequest lead now entry sl B).variableMap.get? k
      = some { Value := vB
               DependentTxID := B.TxID
               ExpiryTime := now + 5 * 60 * 1000000000
               HasDependency := (checkDependencies sl B).1 } := by
  rw [applyRequest_variableMap]
  exact updateDependencyMap_get?_written sl B _ _ _ now k vB (get?_single hBw)

/-- C4: let `A` and `B` have no reads and write only the key `k`.  Whether
they arrive in one batch or in two consecutive batches, `B` is evaluated in a
state where `checkDependencies` answers `(true, A.TxID)`, and after `B` the
record of `k` has `DependentTxID = B.TxID`, `Value = B.WriteSet[k]` and
`HasDependency = true`.  (What `A` reads plays no part, so the theorem does
not restrict it.) -/
theorem hot_key_dependency (Unmarshal : Bytes → Except String PrepareRequestBatch)
    (w w1 w2 : World) (sl : ShardLeader) (e e1 e2 : Entry) (A B : PrepareRequestProto)
    (k : String) (vA vB : Bytes)
    (hAw : A.WriteSet.entries = [(k, vA)])
    (hBr : B.ReadSet.entries = []) (hBw : B.WriteSet.entries = [(k, vB)])
    (he : Unmarshal e.Data = .ok { Requests := [A, B] })
    (he1 : Unmarshal e1.Data = .ok { Requests := [A] })
    (he2 : Unmarshal e2.Data = .ok { Requests := [B] }) :
    checkDependencies
        (applyRequest (w.lead 0) (w.now 0) e { sl with commitIndex := e.Index } A) B
      = (true, A.TxID)
    ∧ (applyEntry Unmarshal w sl e).variableMap.get? k
        = some { Value := vB
                 DependentTxID := B.TxID
                 ExpiryTime := w.now 1 + 5 * 60 * 1000000000
                 HasDependency := true }
    ∧ checkDependencies { applyEntry Unmarshal w1 sl e1 with commitIndex := e2.Index } B
        = (true, A.TxID)
    ∧ (applyEntry Unmarshal w2 (applyEntry Unmarshal w1 sl e1) e2).variableMap.get? k
        = some { Value := vB
                 DependentTxID := B.TxID
                 ExpiryTime := w2.now 0 + 5 * 60 * 1000000000
                 HasDependency := true } := by
  have h1 : applyEntry Unmarshal w sl e
      = applyRequest (w.lead 1) (w.now 1) e
          (applyRequest (w.lead 0) (w.now 0) e { sl with commitIndex := e.Index } A) B := by
    simp [applyEntry, he, applyRequests]
  have h2 : applyEntry Unmarshal w1 sl e1
      = applyRequest (w1.lead 0) (w1.now 0) e1 { sl with commitIndex := e1.Index } A := by
    simp [applyEntry, he1, applyRequests]
  have h3 : applyEntry Unmarshal w2 (applyEntry Unmarshal w1 sl e1) e2
      = applyRequest (w2.lead 0) (w2.now 0) e2
          { applyEntry Unmarshal w1 sl e1 with commitIndex := e2.Index } B := by
    simp [applyEntry, he2, applyRequests]
  have hc1 := checkDependencies_after_write (w.lead 0) (w.now 0) e
    { sl with commitIndex := e.Index } A B k vA vB hAw hBr hBw
  have hc2 : checkDependencies { applyEntry Unmarshal w1 sl e1 with commitIndex := e2.Index } B
      = (true, A.TxID) := by
    refine (checkDependencies_congr (applyEntry Unmarshal w1 sl e1)
      { applyEntry Unmarshal w1 sl e1 with commitIndex := e2.Index } rfl B).trans ?_
    rw [h2]
    exact checkDependencies_after_write _ _ _ _ A B k vA vB hAw hBr hBw
  refine ⟨hc1, ?_, hc2, ?_⟩
  · rw [h1, applyRequest_get?_single _ _ _ _ B k vB hBw, hc1]
  · rw [h3, applyRequest_get?_single _ _ _ _ B k vB hBw, hc2]

/-- C4 at a concrete input: the harness requests `tx-A` and `tx-B` on the hot
key, applied by a fresh replica. -/
theorem hot_key_dependency_witness :
    (txA.ReadSet.entries = [] ∧ txA.WriteSet.entries = [("hot-key", [97])])
    ∧ (txB.ReadSet.entries = [] ∧ txB.WriteSet.entries = [("hot-key", [98])])
    ∧ PrepareRequestBatch.Unmarshal entryAB.Data = .ok { Requests := [txA, txB] }
    ∧ PrepareRequestBatch.Unmarshal entryA.Data = .ok { Requests := [txA] }
    ∧ PrepareRequestBatch.Unmarshal entryB.Data = .ok { Requests := [txB] }
    ∧ checkDependencies
        (applyRequest (sampleWorld.lead 0) (sampleWorld.now 0) entryAB
          { freshLeader with commitIndex := entryAB.Index } txA) txB
      = (true, txA.TxID)
    ∧ (applyEntry PrepareRequestBatch.Unmarshal sampleWorld freshLeader entryAB).variableMap.get?
          "hot-key"
        = some { Value := [98]
                 DependentTxID := txB.TxID
                 ExpiryTime := sampleWorld.now 1 + 5 * 60 * 1000000000
                 HasDependency := true }
    ∧ checkDependencies
        { applyEntry PrepareRequestBatch.Unmarshal sampleWorld freshLeader entryA with
          commitIndex := entryB.Index } txB
      = (true, txA.TxID)
    ∧ (applyEntry PrepareRequestBatch.Unmarshal sampleWorld
          (applyEntry PrepareRequestBatch.Unmarshal sampleWorld freshLeader entryA)
          entryB).variableMap.get? "hot-key"
        = some { Value := [98]
                 DependentTxID := txB.TxID
                 ExpiryTime := sampleWorld.now 0 + 5 * 60 * 1000000000
                 HasDependency := true } :=
  ⟨⟨rfl, rfl⟩, ⟨rfl, rfl⟩, rfl, rfl, rfl,
    hot_key_dependency PrepareRequestBatch.Unmarshal sampleWorld sampleWorld sampleWorld
      freshLeader entryAB entryA entryB txA txB "hot-key" [97] [98] rfl rfl rfl rfl rfl rfl⟩

/-! ## Wire format: decoding what was encoded -/

namespace Wire

theorem toNat_ofNat_lt {n : Nat} (h : n < 256) : (UInt8.ofNat n).toNat = n := by
  show (BitVec.ofNat 8 n).toNat = n
  simp [BitVec.toNat_ofNat]
  omega

theorem getUvarint_putUvarintAux (fuel : Nat) :
    ∀ (n : Nat) (rest : Bytes), n ≤ fuel →
      getUvarint (putUvarintAux fuel n ++ rest) = some (n, rest) := by
  induction fuel with
  | zero =>
    intro n rest h
    have h0 : n = 0 := by omega
    subst h0
    simp [putUvarintAux, getUvarint, toNat_ofNat_lt]
  | succ fuel ih =>
    intro n rest h
    by_cases hn : n < 128
    · have h1 : (UInt8.ofNat n).toNat = n := toNat_ofNat_lt (by omega)
      simp [putUvarintAux, getUvarint, hn, h1]
    · have h1 : (UInt8.ofNat (n % 128 + 128)).toNat = n % 128 + 128 := toNat_ofNat_lt (by omega)
      have h2 := ih (n / 128) rest (by omega)
      simp only [putUvarintAux, if_neg hn, List.cons_append, getUvarint, h1, h2]
      have h3 : ¬ (n % 128 + 128 < 128) := by omega
      simp only [if_neg h3]
      congr 2
      omega

theorem getUvarint_putUvarint (n : Nat) (rest : Bytes) :
    getUvarint (putUvarint n ++ rest) = some (n, rest) :=
  getUvarint_putUvarintAux n n rest (Nat.le_refl n)

theorem unzigzag_zigzag (i : Int) : unzigzag (zigzag i) = i := by
  unfold unzigzag zigzag
  split <;> split <;> omega


theorem getInt_putInt (i : Int) (rest : Bytes) : getInt (putInt i ++ rest) = some (i, rest) := by
  simp [getInt, putInt, getUvarint_putUvarint, unzigzag_zigzag]

theorem getN_flatMap {α : Type} (putOne : α → Bytes) (getOne : Bytes → Option (α × Bytes))
    (xs : List α) (h : ∀ x ∈ xs, ∀ rest, getOne (putOne x ++ rest) = some (x, rest))
    (rest : Bytes) : getN getOne xs.length (xs.flatMap putOne ++ rest) = some (xs, rest) := by
  induction xs with
  | nil => simp [getN]
  | cons x tail ih =>
    have hx := h x (List.mem_cons_self _ _) (tail.flatMap putOne ++ rest)
    have ht := ih fun y hy => h y (List.mem_cons_of_mem _ hy)
    simp [getN, List.flatMap_cons, List.append_assoc, hx, ht]

theorem getMany_putMany {α : Type} (putOne : α → Bytes) (getOne : Bytes → Option (α × Bytes))
    (xs : List α) (h : ∀ x ∈ xs, ∀ rest, getOne (putOne x ++ rest) = some (x, rest))
    (rest : Bytes) : getMany getOne (putMany putOne xs ++ rest) = some (xs, rest) := by
  simp [getMany, putMany, List.append_assoc, getUvarint_putUvarint,
    getN_flatMap putOne getOne xs h rest]

theorem getBytes_putBytes (b rest : Bytes) : getBytes (putBytes b ++ rest) = some (b, rest) := by
  simp [getBytes, putBytes, List.append_assoc, getUvarint_putUvarint]

theorem getChar_putChar (c : Char) (rest : Bytes) :
    getChar (putChar c ++ rest) = some (c, rest) := by
  simp [getChar, putChar, getUvarint_putUvarint, Char.ofNat_toNat]

theorem getString_putString (s : String) (rest : Bytes) :
    getString (putString s ++ rest) = some (s, rest) := by
  simp [getString, putString,
    getMany_putMany putChar getChar s.data (fun c _ r => getChar_putChar c r) rest]

theorem getEntry_putEntry (e : String × Bytes) (rest : Bytes) :
    getEntry (putEntry e ++ rest) = some (e, rest) := by
  simp [getEntry, putEntry, List.append_assoc, getString_putString, getBytes_putBytes]

theorem getMap_putMap (m : GoMap Bytes) (rest : Bytes) :
    getMap (putMap m ++ rest) = some (copyMap m, rest) := by
  simp [getMap, putMap, copyMap,
    getMany_putMany putEntry getEntry m.entries (fun e _ r => getEntry_putEntry e r) rest]

theorem getRequest_putRequest (r : PrepareRequestProto) (rest : Bytes) :
    getRequest (putRequest r ++ rest)
      = some ({ r with ReadSet := copyMap r.ReadSet, WriteSet := copyMap r.WriteSet }, rest) := by
  simp [getRequest, putRequest, getTag, List.append_assoc, getString_putString, getMap_putMap,
    getInt_putInt]

end Wire

/-! ## Batch round trip -/

theorem setEntry_of_not_mem {V : Type} (k : String) (v : V) (l : List (String × V))
    (h : k ∉ l.map Prod.fst) : GoMap.setEntry k v l = l ++ [(k, v)] := by
  induction l with
  | nil => rfl
  | cons e rest ih =>
    simp only [List.map_cons, List.mem_cons, not_or] at h
    have h1 : ¬ e.1 = k := fun h2 => h.1 h2.symm
    simp [GoMap.setEntry, h1, ih h.2]

theorem foldl_set_append {V : Type} (es : List (String × V)) :
    ∀ pre : List (String × V), (es.map Prod.fst).Nodup →
      (∀ e ∈ es, e.1 ∉ pre.map Prod.fst) →
      es.foldl (fun m e => m.set e.1 e.2) (⟨pre⟩ : GoMap V) = ⟨pre ++ es⟩ := by
  induction es with
  | nil => intro pre _ _; simp
  | cons e rest ih =>
    intro pre hnd hpre
    simp only [List.map_cons, List.nodup_cons] at hnd
    have h1 : GoMap.set ⟨pre⟩ e.1 e.2 = ⟨pre ++ [e]⟩ := by
      simp [GoMap.set, setEntry_of_not_mem e.1 e.2 pre (hpre e (List.mem_cons_self _ _))]
    rw [List.foldl_cons, h1, ih (pre ++ [e]) hnd.2]
    · simp
    · intro e' he'
      simp only [List.map_append, List.map_cons, List.map_nil, List.mem_append,
        List.mem_singleton, not_or]
      refine ⟨hpre e' (List.mem_cons_of_mem _ he'), ?_⟩
      intro heq
      exact hnd.1 (heq ▸ List.mem_map_of_mem Prod.fst he')

/-- Copying a map with unique keys gives the same entries. -/
theorem copyMap_of_WF (m : GoMap Bytes) (h : m.WF) : copyMap m = m := by
  have := foldl_set_append m.entries [] h (by simp)
  simpa [copyMap, GoMap.empty] using this

theorem getRequest_putRequest_toProto (req : PrepareRequest) (hr : req.ReadSet.WF)
    (hw : req.WriteSet.WF) (rest : Bytes) :
    Wire.getRequest (Wire.putRequest (toProto req) ++ rest) = some (toProto req, rest) := by
  rw [Wire.getRequest_putRequest]
  simp [toProto, copyMap_of_WF _ hr, copyMap_of_WF _ hw]

theorem unmarshal_serialized (batch : List PrepareRequest)
    (hwf : ∀ req ∈ batch, req.ReadSet.WF ∧ req.WriteSet.WF) :
    PrepareRequestBatch.Unmarshal (Wire.putMany Wire.putRequest (batch.map toProto))
      = .ok { Requests := batch.map toProto } := by
  have h := Wire.getMany_putMany Wire.putRequest Wire.getRequest (batch.map toProto) (by
    intro x hx rest
    obtain ⟨req, hreq, rfl⟩ := List.mem_map.1 hx
    exact getRequest_putRequest_toProto req (hwf req hreq).1 (hwf req hreq).2 rest) []
  rw [List.append_nil] at h
  simp [PrepareRequestBatch.Unmarshal, h]

/-- C6: for every ordered batch of requests (whose maps have unique keys, as
Go maps do), `serializeBatch` succeeds, decoding its bytes succeeds, and the
decoded batch has as many requests as the original, in the same order, each
with the same `TxID`, `ShardID`, read-set contents and write-set contents,
and with the Unix seconds of the original timestamp. -/
theorem serializeBatch_roundtrip (batch : List PrepareRequest)
    (hwf : ∀ req ∈ batch, req.ReadSet.WF ∧ req.WriteSet.WF) :
    ∃ (data : Bytes) (out : List PrepareRequestProto),
      serializeBatch PrepareRequestBatch.Marshal batch = .ok data
      ∧ PrepareRequestBatch.Unmarshal data = .ok { Requests := out }
      ∧ out.length = batch.length
      ∧ ∀ i (h1 : i < out.length) (h2 : i < batch.length),
          out[i].TxID = batch[i].TxID
          ∧ out[i].ShardID = batch[i].ShardID
          ∧ (∀ k, out[i].ReadSet.get? k = batch[i].ReadSet.get? k)
          ∧ (∀ k, out[i].WriteSet.get? k = batch[i].WriteSet.get? k)
          ∧ out[i].Timestamp = batch[i].Timestamp / 1000000000 := by
  refine ⟨Wire.putMany Wire.putRequest (batch.map toProto), batch.map toProto, rfl,
    unmarshal_serialized batch hwf, List.length_map _ _, ?_⟩
  intro i h1 h2
  have hmem : batch[i] ∈ batch := List.getElem_mem h2
  rw [List.getElem_map]
  refine ⟨rfl, rfl, ?_, ?_, rfl⟩
  · intro k
    simp [toProto, copyMap_of_WF _ (hwf _ hmem).1]
  · intro k
    simp [toProto, copyMap_of_WF _ (hwf _ hmem).2]

/-- C6 at a concrete input: a batch of two client requests, one of them
stamped before 1970. -/
theorem serializeBatch_roundtrip_witness :
    (∀ req ∈ [clientA, clientB], req.ReadSet.WF ∧ req.WriteSet.WF)
    ∧ ∃ (data : Bytes) (out : List PrepareRequestProto),
      serializeBatch PrepareRequestBatch.Marshal [clientA, clientB] = .ok data
      ∧ PrepareRequestBatch.Unmarshal data = .ok { Requests := out }
      ∧ out.length = [clientA, clientB].length
      ∧ ∀ i (h1 : i < out.length) (h2 : i < [clientA, clientB].length),
          out[i].TxID = [clientA, clientB][i].TxID
          ∧ out[i].ShardID = [clientA, clientB][i].ShardID
          ∧ (∀ k, out[i].ReadSet.get? k = [clientA, clientB][i].ReadSet.get? k)
          ∧ (∀ k, out[i].WriteSet.get? k = [clientA, clientB][i].WriteSet.get? k)
          ∧ out[i].Timestamp = [clientA, clientB][i].Timestamp / 1000000000 :=
  ⟨by decide, serializeBatch_roundtrip [clientA, clientB] (by decide)⟩

/-! ## Batcher: batch sizes -/

theorem flushBatch_empty (Marshal : PrepareRequestBatch → Except String Bytes) (now : Time)
    (sl : ShardLeader) (h : sl.batchQueue = []) : flushBatch Marshal now sl = (sl, none) := by
  simp [flushBatch, h]

theorem flushBatch_nonempty (Marshal : PrepareRequestBatch → Except String Bytes) (now : Time)
    (sl : ShardLeader) (h : sl.batchQueue ≠ []) :
    ∃ f, flushBatch Marshal now sl
        = ({ sl with batchQueue := [], lastBatchTime := now }, some f)
      ∧ f.batch = sl.batchQueue
      ∧ ∀ data, f.data = some data → serializeBatch Marshal f.batch = .ok data := by
  cases hs : serializeBatch Marshal sl.batchQueue with
  | error e =>
    refine ⟨{ batch := sl.batchQueue, data := none }, ?_, rfl, fun data hd => by simp at hd⟩
    simp [flushBatch, h, hs]
  | ok d =>
    refine ⟨{ batch := sl.batchQueue, data := some d }, ?_, rfl, fun data hd => ?_⟩
    · simp [flushBatch, h, hs]
    · simp only [Option.some.injEq] at hd
      rw [← hd, hs]

/-- One recorded call of `flushBatch`: the buffer is empty afterwards, the
size limit is untouched, and a new record, if any, holds the buffer as it
was. -/
theorem flush_spec (Marshal : PrepareRequestBatch → Except String Bytes) (now : Time)
    (M : Int) (r : BatcherRun) (hM : r.sl.maxBatchSize = M)
    (hlen : (r.sl.batchQueue.length : Int) ≤ M) (hgood : ∀ f ∈ r.flushes, f.Good Marshal M) :
    (r.flush Marshal now).sl.maxBatchSize = M
    ∧ (r.flush Marshal now).sl.batchQueue = []
    ∧ ∀ f ∈ (r.flush Marshal now).flushes, f.Good Marshal M := by
  by_cases h : r.sl.batchQueue = []
  · have e : r.flush Marshal now = r := by
      simp [BatcherRun.flush, flushBatch_empty Marshal now r.sl h]
    rw [e]
    exact ⟨hM, h, hgood⟩
  · obtain ⟨f, hf, hb, hd⟩ := flushBatch_nonempty Marshal now r.sl h
    have e : r.flush Marshal now
        = { sl := { r.sl with batchQueue := [], lastBatchTime := now },
            flushes := r.flushes ++ [f] } := by
      simp [BatcherRun.flush, hf]
    rw [e]
    refine ⟨hM, rfl, ?_⟩
    intro g hg
    rcases List.mem_append.1 hg with hg | hg
    · exact hgood g hg
    · rw [List.mem_singleton] at hg
      subst hg
      refine ⟨?_, by rw [hb]; exact hlen, hd⟩
      rw [hb]
      exact List.length_pos.2 h

theorem flush_queue_le (Marshal : PrepareRequestBatch → Except String Bytes) (now : Time)
    (r : BatcherRun) :
    (r.flush Marshal now).sl.batchQueue.length ≤ r.sl.batchQueue.length := by
  by_cases h : r.sl.batchQueue = []
  · simp [BatcherRun.flush, flushBatch_empty Marshal now r.sl h]
  · obtain ⟨f, hf, _, _⟩ := flushBatch_nonempty Marshal now r.sl h
    simp [BatcherRun.flush, hf]

/-- The timer flushes that run between the append and the size-triggered
flush keep the limit and the records in order and never grow the buffer. -/
theorem between_spec (Marshal : PrepareRequestBatch → Except String Bytes) (M : Int)
    (hpos : 1 ≤ M) (ts : List Time) :
    ∀ r : BatcherRun, r.sl.maxBatchSize = M → (r.sl.batchQueue.length : Int) ≤ M →
      (∀ f ∈ r.flushes, f.Good Marshal M) →
      (ts.foldl (fun r t => r.flush Marshal t) r).sl.maxBatchSize = M
      ∧ (ts.foldl (fun r t => r.flush Marshal t) r).sl.batchQueue.length
          ≤ r.sl.batchQueue.length
      ∧ ∀ f ∈ (ts.foldl (fun r t => r.flush Marshal t) r).flushes, f.Good Marshal M := by
  induction ts with
  | nil => intro r hM _ hgood; exact ⟨hM, Nat.le_refl _, hgood⟩
  | cons t rest ih =>
    intro r hM hlen hgood
    obtain ⟨h1, h2, h3⟩ := flush_spec Marshal t M r hM hlen hgood
    have hle := flush_queue_le Marshal t r
    obtain ⟨k1, k2, k3⟩ := ih (r.flush Marshal t) h1 (by rw [h2]; simp; omega) h3
    exact ⟨k1, Nat.le_trans k2 hle, k3⟩

/-- One scheduling step keeps the buffer below the limit and the records in
order. -/
theorem step_spec (Marshal : PrepareRequestBatch → Except String Bytes) (M : Int)
    (hpos : 1 ≤ M) (r : BatcherRun) (s : BatcherStep) (hM : r.sl.maxBatchSize = M)
    (hlen : (r.sl.batchQueue.length : Int) < M) (hgood : ∀ f ∈ r.flushes, f.Good Marshal M) :
    (r.step Marshal s).sl.maxBatchSize = M
    ∧ ((r.step Marshal s).sl.batchQueue.length : Int) < M
    ∧ ∀ f ∈ (r.step Marshal s).flushes, f.Good Marshal M := by
  cases s with
  | timer now =>
    obtain ⟨h1, h2, h3⟩ := flush_spec Marshal now M r hM (by omega) hgood
    refine ⟨h1, ?_, h3⟩
    show (((r.flush Marshal now).sl.batchQueue.length : Nat) : Int) < M
    rw [h2]
    simp
    omega
  | inbound req between now =>
    let r1 : BatcherRun :=
      { sl := { r.sl with batchQueue := r.sl.batchQueue ++ [req] }, flushes := r.flushes }
    have hstep : r.step Marshal (.inbound req between now)
        = if decide ((r1.sl.batchQueue.length : Int) ≥ r1.sl.maxBatchSize) = true then
            (between.foldl (fun (r : BatcherRun) (t : Time) => r.flush Marshal t) r1).flush
              Marshal now
          else between.foldl (fun (r : BatcherRun) (t : Time) => r.flush Marshal t) r1 := rfl
    have hq1 : r1.sl.batchQueue.length = r.sl.batchQueue.length + 1 := by simp [r1]
    have hM1 : r1.sl.maxBatchSize = M := hM
    have hle1 : (r1.sl.batchQueue.length : Int) ≤ M := by
      rw [hq1]
      push_cast
      omega
    obtain ⟨h1, h2, h3⟩ := between_spec Marshal M hpos between r1 hM1 hle1 hgood
    rw [hstep, hM1]
    generalize between.foldl (fun (r : BatcherRun) (t : Time) => r.flush Marshal t) r1 = r2
      at h1 h2 h3
    have h2' : (r2.sl.batchQueue.length : Int) ≤ (r1.sl.batchQueue.length : Int) := by
      exact_mod_cast h2
    by_cases hf : (r1.sl.batchQueue.length : Int) ≥ M
    · rw [if_pos (decide_eq_true hf)]
      obtain ⟨k1, k2, k3⟩ := flush_spec Marshal now M r2 h1 (by omega) h3
      refine ⟨k1, ?_, k3⟩
      rw [k2]
      simp only [List.length_nil, Nat.cast_zero]
      omega
    · rw [if_neg (by simpa using hf)]
      exact ⟨h1, by omega, h3⟩

theorem exec_spec (Marshal : PrepareRequestBatch → Except String Bytes) (M : Int)
    (hpos : 1 ≤ M) (steps : List BatcherStep) :
    ∀ r : BatcherRun, r.sl.maxBatchSize = M → (r.sl.batchQueue.length : Int) < M →
      (∀ f ∈ r.flushes, f.Good Marshal M) →
      ∀ f ∈ (r.exec Marshal steps).flushes, f.Good Marshal M := by
  induction steps with
  | nil => intro r _ _ hgood; exact hgood
  | cons s rest ih =>
    intro r hM hlen hgood
    obtain ⟨h1, h2, h3⟩ := step_spec Marshal M hpos r s hM hlen hgood
    exact ih (r.step Marshal s) h1 h2 h3

/-- C7: with `maxBatchSize >= 1` and an empty buffer at the start, whatever
the sequence of inbound proposals and timer flushes: `flushBatch` on an empty
buffer returns the state as it was and proposes nothing, and every batch
taken by a flush (so every batch handed to the consensus driver) holds at
least 1 and at most `maxBatchSize` requests; the bytes proposed are the
serialization of that batch. -/
theorem batch_size_bounds (Marshal : PrepareRequestBatch → Except String Bytes)
    (sl : ShardLeader) (steps : List BatcherStep) (hmax : 1 ≤ sl.maxBatchSize)
    (hempty : sl.batchQueue = []) :
    (∀ (now : Time) (s : ShardLeader), s.batchQueue = [] → flushBatch Marshal now s = (s, none))
    ∧ (∀ (now : Time) (r : BatcherRun), r.sl.batchQueue = [] → r.flush Marshal now = r)
    ∧ ∀ f ∈ (BatcherRun.exec Marshal { sl := sl, flushes := [] } steps).flushes,
        1 ≤ f.batch.length ∧ (f.batch.length : Int) ≤ sl.maxBatchSize
        ∧ ∀ data, f.data = some data → serializeBatch Marshal f.batch = .ok data := by
  refine ⟨fun now s h => flushBatch_empty Marshal now s h, ?_, ?_⟩
  · intro now r h
    simp [BatcherRun.flush, flushBatch_empty Marshal now r.sl h]
  · intro f hf
    exact exec_spec Marshal sl.maxBatchSize hmax steps { sl := sl, flushes := [] } rfl
      (by simp only [hempty, List.length_nil, Nat.cast_zero]; omega)
      (fun g hg => absurd hg (List.not_mem_nil g)) f hf

/-- C7 at a concrete input: limit 2, six steps, two flushes. -/
theorem batch_size_bounds_witness :
    1 ≤ smallBatcher.maxBatchSize
    ∧ smallBatcher.batchQueue = []
    ∧ ((BatcherRun.exec PrepareRequestBatch.Marshal { sl := smallBatcher, flushes := [] }
          sampleSchedule).flushes.map Flushed.batch = [[clientA], [clientB, clientA]])
    ∧ (∀ (now : Time) (s : ShardLeader), s.batchQueue = [] →
        flushBatch PrepareRequestBatch.Marshal now s = (s, none))
    ∧ (∀ (now : Time) (r : BatcherRun), r.sl.batchQueue = [] →
        r.flush PrepareRequestBatch.Marshal now = r)
    ∧ ∀ f ∈ (BatcherRun.exec PrepareRequestBatch.Marshal { sl := smallBatcher, flushes := [] }
          sampleSchedule).flushes,
        1 ≤ f.batch.length ∧ (f.batch.length : Int) ≤ smallBatcher.maxBatchSize
        ∧ ∀ data, f.data = some data →
            serializeBatch PrepareRequestBatch.Marshal f.batch = .ok data :=
  ⟨by decide, rfl, rfl,
    batch_size_bounds PrepareRequestBatch.Marshal smallBatcher sampleSchedule (by decide) rfl⟩

/-! ## Batcher: order of the requests -/

/-- A recorded call of `flushBatch` empties the buffer and moves what waited
there, in order, behind the batches already taken. -/
theorem flush_requests (Marshal : PrepareRequestBatch → Except String Bytes) (now : Time)
    (r : BatcherRun) :
    (r.flush Marshal now).sl.batchQueue = []
    ∧ (r.flush Marshal now).requests = r.requests := by
  by_cases h : r.sl.batchQueue = []
  · have e : r.flush Marshal now = r := by
      simp [BatcherRun.flush, flushBatch_empty Marshal now r.sl h]
    rw [e]
    exact ⟨h, rfl⟩
  · obtain ⟨f, hf, hb, _⟩ := flushBatch_nonempty Marshal now r.sl h
    have e : r.flush Marshal now
        = { sl := { r.sl with batchQueue := [], lastBatchTime := now },
            flushes := r.flushes ++ [f] } := by
      simp [BatcherRun.flush, hf]
    rw [e]
    refine ⟨rfl, ?_⟩
    simp [BatcherRun.requests, hb]

theorem between_requests (Marshal : PrepareRequestBatch → Except String Bytes)
    (ts : List Time) :
    ∀ r : BatcherRun,
      (ts.foldl (fun (r : BatcherRun) (t : Time) => r.flush Marshal t) r).requests
        = r.requests := by
  induction ts with
  | nil => intro r; rfl
  | cons t rest ih =>
    intro r
    rw [List.foldl_cons, ih, (flush_requests Marshal t r).2]

/-- One scheduling step adds the request it takes from `proposeC`, if any,
at the end and moves nothing else. -/
theorem step_requests (Marshal : PrepareRequestBatch → Except String Bytes) (r : BatcherRun)
    (s : BatcherStep) : (r.step Marshal s).requests = r.requests ++ arrivals [s] := by
  cases s with
  | timer now =>
    simp only [arrivals, List.append_nil]
    exact (flush_requests Marshal now r).2
  | inbound req between now =>
    let r1 : BatcherRun :=
      { sl := { r.sl with batchQueue := r.sl.batchQueue ++ [req] }, flushes := r.flushes }
    have hstep : r.step Marshal (.inbound req between now)
        = if decide ((r1.sl.batchQueue.length : Int) ≥ r1.sl.maxBatchSize) = true then
            (between.foldl (fun (r : BatcherRun) (t : Time) => r.flush Marshal t) r1).flush
              Marshal now
          else between.foldl (fun (r : BatcherRun) (t : Time) => r.flush Marshal t) r1 := rfl
    have h1 : r1.requests = r.requests ++ [req] := by
      simp [r1, BatcherRun.requests]
    have h2 := between_requests Marshal between r1
    rw [hstep]
    simp only [arrivals]
    split
    · rw [(flush_requests Marshal now _).2, h2, h1]
    · rw [h2, h1]

theorem arrivals_cons (s : BatcherStep) (rest : List BatcherStep) :
    arrivals (s :: rest) = arrivals [s] ++ arrivals rest := by
  cases s <;> simp [arrivals]

theorem exec_requests (Marshal : PrepareRequestBatch → Except String Bytes)
    (steps : List BatcherStep) :
    ∀ r : BatcherRun, (r.exec Marshal steps).requests = r.requests ++ arrivals steps := by
  induction steps with
  | nil => intro r; simp [BatcherRun.exec, arrivals]
  | cons s rest ih =>
    intro r
    have h := ih (r.step Marshal s)
    simp only [BatcherRun.exec, List.foldl_cons] at h ⊢
    rw [h, step_requests, List.append_assoc, ← arrivals_cons]

/-- C11: start the batcher with an empty buffer and run any sequence of
inbound proposals and timer flushes.  The batches taken by `flushBatch`, in
flush order, followed by the requests still in the buffer, are exactly the
requests taken from the inbound queue, in arrival order: none is lost, none
is duplicated, none is moved.  After any call of `flushBatch` the buffer is
empty. -/
theorem batcher_keeps_order (Marshal : PrepareRequestBatch → Except String Bytes)
    (sl : ShardLeader) (steps : List BatcherStep) (hempty : sl.batchQueue = []) :
    (BatcherRun.exec Marshal { sl := sl, flushes := [] } steps).flushes.flatMap Flushed.batch
        ++ (BatcherRun.exec Marshal { sl := sl, flushes := [] } steps).sl.batchQueue
      = arrivals steps
    ∧ (∀ (now : Time) (s : ShardLeader), (flushBatch Marshal now s).1.batchQueue = [])
    ∧ ∀ (now : Time) (r : BatcherRun), (r.flush Marshal now).sl.batchQueue = [] := by
  refine ⟨?_, ?_, fun now r => (flush_requests Marshal now r).1⟩
  · have h := exec_requests Marshal steps { sl := sl, flushes := [] }
    simpa [BatcherRun.requests, hempty] using h
  · intro now s
    by_cases h : s.batchQueue = []
    · rw [flushBatch_empty Marshal now s h]
      exact h
    · obtain ⟨f, hf, _, _⟩ := flushBatch_nonempty Marshal now s h
      rw [hf]

/-- C11 at a concrete input: six steps with limit 2; two batches are flushed
and one request still waits. -/
theorem batcher_keeps_order_witness :
    smallBatcher.batchQueue = []
    ∧ arrivals sampleSchedule = [clientA, clientB, clientA, clientB]
    ∧ (BatcherRun.exec PrepareRequestBatch.Marshal { sl := smallBatcher, flushes := [] }
          sampleSchedule).sl.batchQueue = [clientB]
    ∧ ((BatcherRun.exec PrepareRequestBatch.Marshal { sl := smallBatcher, flushes := [] }
          sampleSchedule).flushes.flatMap Flushed.batch
        ++ (BatcherRun.exec PrepareRequestBatch.Marshal { sl := smallBatcher, flushes := [] }
          sampleSchedule).sl.batchQueue
      = arrivals sampleSchedule)
    ∧ (∀ (now : Time) (s : ShardLeader),
        (flushBatch PrepareRequestBatch.Marshal now s).1.batchQueue = [])
    ∧ ∀ (now : Time) (r : BatcherRun),
        (r.flush PrepareRequestBatch.Marshal now).sl.batchQueue = [] :=
  ⟨rfl, rfl, rfl,
    batcher_keeps_order PrepareRequestBatch.Marshal smallBatcher sampleSchedule rfl⟩

end Sharding
